import Mathlib

/-!
Shallow embedding of the QuarterLang compiler pipeline (JoeySoprano420/QuarterLang,
`src/unnamed/part_000`).  Two revisions of the pipeline are embedded:

* namespace `CFG`  — the CFG pipeline (lines ~870–1000): `lower` with the fatal
  `int` type check, loop lowering to `loop_cond`/`loop_body`/`loop_end` blocks,
  and execution of the generated x86-64 assembly, whose `CondJump` is emitted as
  `cmp a, b` / `jne target` by `X86_64CodeGen::emitInstr`.
* namespace `StackIR` — the stack-frame pipeline (lines ~2520–2740): the
  istringstream parser (`parse`, `parseFunction`, `parseCall`, `parseExpr`),
  the lowering with per-function `varOffsets` (`allocateVar`, `lowerFunction`,
  `lower`) and the `IRInterpreter` (`call`, `step`, `valueOf`).

C++ `int` values are modelled as `Int`; `std::map`/`std::unordered_map` are
modelled as association lists (`mapInsert`/`mapLookup`) since only
insertion-with-overwrite and lookup are used; `std::stoi` is modelled by
`stoi` with both of its failure modes explicit — `StoiResult.invalidArgument`
for `std::invalid_argument` (no digits) and `StoiResult.outOfRange` for
`std::out_of_range` (a value outside the `int` range
[-2147483648, 2147483647]); signed-overflow undefined behaviour in `Add`
arithmetic is not exercised by any theorem of this file; C++ undefined
behaviour (out-of-range `std::vector` indexing, `static_cast` to the wrong
node type, `back()` on an empty container) is modelled as an explicit error
value.
-/

/-- Lookup in an association list: the model of `std::map::find`/`count`/`at`. -/
def mapLookup {α : Type} : List (String × α) → String → Option α
  | [], _ => none
  | (k, v) :: rest, q => if k = q then some v else mapLookup rest q

/-- Insert-or-overwrite in an association list: the model of `m[k] = v`. -/
def mapInsert {α : Type} : List (String × α) → String → α → List (String × α)
  | [], k, v => [(k, v)]
  | (k', v') :: rest, k, v =>
      if k' = k then (k, v) :: rest else (k', v') :: mapInsert rest k v

theorem mapLookup_insert_self {α : Type} (m : List (String × α)) (k : String) (v : α) :
    mapLookup (mapInsert m k v) k = some v := by
  induction m with
  | nil => simp [mapInsert, mapLookup]
  | cons p rest ih =>
      obtain ⟨k', v'⟩ := p
      by_cases h : k' = k
      · simp [mapInsert, h, mapLookup]
      · simp [mapInsert, h, mapLookup, ih]

theorem mapLookup_insert_ne {α : Type} (m : List (String × α)) (k q : String) (v : α)
    (h : q ≠ k) : mapLookup (mapInsert m k v) q = mapLookup m q := by
  induction m with
  | nil => simp [mapInsert, mapLookup, Ne.symm h]
  | cons p rest ih =>
      obtain ⟨k', v'⟩ := p
      by_cases hk : k' = k
      · subst hk
        simp [mapInsert, mapLookup, Ne.symm h]
      · by_cases hq : k' = q
        · subst hq
          simp [mapInsert, hk, mapLookup]
        · simp [mapInsert, hk, mapLookup, hq, ih]

/-- Digit characters `0`–`9`, as produced by `std::to_string` on a nonnegative
value and consumed by `std::stoi`. -/
def digitChar : Nat → Char
  | 0 => '0' | 1 => '1' | 2 => '2' | 3 => '3' | 4 => '4'
  | 5 => '5' | 6 => '6' | 7 => '7' | 8 => '8' | 9 => '9'
  | _ => '*'

/-- `isdigit` in the C locale. -/
def isDigitCh (c : Char) : Bool := 48 ≤ c.toNat && c.toNat ≤ 57

/-- `isalpha` in the C locale. -/
def isAlphaCh (c : Char) : Bool :=
  (65 ≤ c.toNat && c.toNat ≤ 90) || (97 ≤ c.toNat && c.toNat ≤ 122)

/-- `isspace` in the C locale (the whitespace set used by `istream` skipping). -/
def isWSChar (c : Char) : Bool :=
  c = ' ' || c = '\t' || c = '\n' || c = '\r' || c = '\x0b' || c = '\x0c'

/-- Numeric value of a digit character. -/
def digitVal (c : Char) : Nat := c.toNat - 48

/-- Accumulate decimal digits, as `std::stoi` does after sign handling. -/
def stoiAcc (acc : Nat) (l : List Char) : Nat :=
  l.foldl (fun a c => a * 10 + digitVal c) acc

/-- Sign handling of `std::stoi`: an optional leading `-` or `+`. -/
def stoiSign (l : List Char) : Int × List Char :=
  match l with
  | [] => (1, [])
  | c :: r => if c = '-' then (-1, r) else if c = '+' then (1, r) else (1, c :: r)

/-- The outcome of `std::stoi`: a value, the `std::invalid_argument`
exception (no digits), or the `std::out_of_range` exception (converted value
outside the `int` range). -/
inductive StoiResult where
  | ok (v : Int)
  | invalidArgument
  | outOfRange
deriving DecidableEq

/-- `INT_MIN` for the 32-bit `int` that `std::stoi` converts to. -/
def intMin : Int := -2147483648

/-- `INT_MAX` for the 32-bit `int` that `std::stoi` converts to. -/
def intMax : Int := 2147483647

/-- Digit-run part of `std::stoi`, after whitespace skipping: read an optional
sign then a nonempty run of decimal digits (trailing characters are ignored, as
in C++); no digits is `std::invalid_argument`, and a converted value outside
[`intMin`, `intMax`] is `std::out_of_range`. -/
def stoiCore (l : List Char) : StoiResult :=
  if ((stoiSign l).2.takeWhile isDigitCh).isEmpty then .invalidArgument
  else if (stoiSign l).1 * (stoiAcc 0 ((stoiSign l).2.takeWhile isDigitCh) : Nat) < intMin
        ∨ intMax < (stoiSign l).1 * (stoiAcc 0 ((stoiSign l).2.takeWhile isDigitCh) : Nat)
    then .outOfRange
  else .ok ((stoiSign l).1 * (stoiAcc 0 ((stoiSign l).2.takeWhile isDigitCh) : Nat))

/-- Model of `std::stoi`. -/
def stoi (s : String) : StoiResult :=
  stoiCore (s.data.dropWhile isWSChar)

/-- Digit emission for `natRepr`, structured as fuelled recursion so that it
computes by kernel reduction (the fuel is always sufficient). -/
def natReprRec (fuel n : Nat) : List Char :=
  match fuel with
  | 0 => []
  | f + 1 => if n < 10 then [digitChar n] else natReprRec f (n / 10) ++ [digitChar (n % 10)]

/-- Model of `std::to_string` on a nonnegative value (and of a decimal integer
literal's text): most-significant-first decimal digits. -/
def natRepr (n : Nat) : String := ⟨natReprRec (n + 1) n⟩

theorem digitChar_facts (d : Nat) (hd : d < 10) :
    digitVal (digitChar d) = d ∧ isDigitCh (digitChar d) = true ∧
      isWSChar (digitChar d) = false ∧ digitChar d ≠ '-' ∧ digitChar d ≠ '+' := by
  interval_cases d <;> exact ⟨rfl, rfl, rfl, by decide, by decide⟩

theorem natReprRec_eq_digits :
    ∀ fuel n : Nat, 0 < n → n ≤ fuel →
      natReprRec fuel n = ((Nat.digits 10 n).map digitChar).reverse := by
  intro fuel
  induction fuel with
  | zero => intro n hn hle; omega
  | succ f ih =>
      intro n hn hle
      have hdig : Nat.digits 10 n = n % 10 :: Nat.digits 10 (n / 10) :=
        Nat.digits_def' (by norm_num) hn
      by_cases hsmall : n < 10
      · have hdiv : n / 10 = 0 := Nat.div_eq_of_lt hsmall
        have hmod : n % 10 = n := Nat.mod_eq_of_lt hsmall
        simp [natReprRec, hsmall, hdig, hdiv, hmod]
      · have hdivpos : 0 < n / 10 := Nat.div_pos (by omega) (by norm_num)
        have hdivle : n / 10 ≤ f := by
          have := Nat.div_lt_self (by omega : 0 < n) (by norm_num : 1 < 10)
          omega
        simp [natReprRec, hsmall, hdig, ih (n / 10) hdivpos hdivle,
          List.reverse_cons]

theorem natRepr_eq_digits (n : Nat) (hn : n ≠ 0) :
    natRepr n = ⟨((Nat.digits 10 n).map digitChar).reverse⟩ := by
  rw [natRepr, natReprRec_eq_digits (n + 1) n (by omega) (by omega)]

theorem takeWhile_eq_self {p : Char → Bool} :
    ∀ l : List Char, (∀ c ∈ l, p c = true) → l.takeWhile p = l := by
  intro l
  induction l with
  | nil => intro _; rfl
  | cons c rest ih =>
      intro h
      have hc : p c = true := h c (by simp)
      have hrest := ih fun x hx => h x (by simp [hx])
      simp [List.takeWhile_cons, hc, hrest]

theorem stoiAcc_digits (L : List Nat) :
    ∀ acc : Nat, (∀ d ∈ L, d < 10) →
      stoiAcc acc ((L.map digitChar).reverse) = acc * 10 ^ L.length + Nat.ofDigits 10 L := by
  induction L with
  | nil => intro acc _; simp [stoiAcc, Nat.ofDigits_nil]
  | cons d T ih =>
      intro acc h
      have hd : d < 10 := h d (by simp)
      have hT : ∀ x ∈ T, x < 10 := fun x hx => h x (by simp [hx])
      have hstep : ((d :: T).map digitChar).reverse
          = ((T.map digitChar).reverse) ++ [digitChar d] := by
        simp [List.map_cons, List.reverse_cons]
      rw [hstep]
      unfold stoiAcc
      rw [List.foldl_append]
      have := ih acc hT
      unfold stoiAcc at this
      rw [this]
      simp [List.foldl, (digitChar_facts d hd).1, Nat.ofDigits_cons]
      ring

theorem stoi_natRepr (n : Nat) (hle : (n : Int) ≤ intMax) :
    stoi (natRepr n) = .ok (n : Int) := by
  by_cases h0 : n = 0
  · subst h0; decide
  · have hne : Nat.digits 10 n ≠ [] := Nat.digits_ne_nil_iff_ne_zero.mpr h0
    have hlt : ∀ d ∈ Nat.digits 10 n, d < 10 := fun d hd =>
      Nat.digits_lt_base (by norm_num) hd
    have hallc : ∀ c ∈ ((Nat.digits 10 n).map digitChar).reverse,
        isWSChar c = false ∧ isDigitCh c = true ∧ c ≠ '-' ∧ c ≠ '+' := by
      intro c hc
      rw [List.mem_reverse, List.mem_map] at hc
      obtain ⟨d, hd, rfl⟩ := hc
      have := digitChar_facts d (hlt d hd)
      exact ⟨this.2.2.1, this.2.1, this.2.2.2.1, this.2.2.2.2⟩
    have hlne : ((Nat.digits 10 n).map digitChar).reverse ≠ [] := by
      simp [hne]
    obtain ⟨c, rest, hrest⟩ := List.exists_cons_of_ne_nil hlne
    rw [natRepr_eq_digits n h0]
    unfold stoi
    have hdata : (String.mk (((Nat.digits 10 n).map digitChar).reverse)).data
        = ((Nat.digits 10 n).map digitChar).reverse := rfl
    rw [hdata, hrest]
    have hcfacts := hallc c (by rw [hrest]; simp)
    have hdrop : List.dropWhile isWSChar (c :: rest) = c :: rest := by
      simp [List.dropWhile_cons, hcfacts.1]
    rw [hdrop]
    have hsign : stoiSign (c :: rest) = (1, c :: rest) := by
      simp [stoiSign, hcfacts.2.2.1, hcfacts.2.2.2]
    have htake : List.takeWhile isDigitCh (c :: rest) = c :: rest := by
      apply takeWhile_eq_self
      intro x hx
      exact (hallc x (by rw [hrest]; exact hx)).2.1
    have hacc := stoiAcc_digits (Nat.digits 10 n) 0 hlt
    rw [Nat.ofDigits_digits] at hacc
    have haccn : stoiAcc 0 (((Nat.digits 10 n).map digitChar).reverse) = n := by
      rw [hacc]; simp
    rw [stoiCore, hsign]
    simp only [htake]
    rw [← hrest]
    have hnonempty : (((Nat.digits 10 n).map digitChar).reverse).isEmpty = false := by
      rw [hrest]; rfl
    simp only [hnonempty, haccn, Bool.false_eq_true, if_false, one_mul]
    have hrange : ¬((n : Int) < intMin ∨ intMax < (n : Int)) := by
      rw [intMin, intMax]
      rw [intMax] at hle
      omega
    rw [if_neg hrange]

namespace CFG

/-- AST of the CFG pipeline (part_000 §1): literals, binary expressions,
`val` declarations and `loop … to …` statements. -/
inductive AST where
  | lit (value : String)
  | binary (lhs op rhs : String)
  | valDecl (name type : String) (init : AST)
  | loop (start stop : AST) (body : List AST)

/-- IR opcodes of the CFG pipeline (part_000 §3). -/
inductive IROp where
  | alloc | store | load | add | sub | mul | div
  | jump | condJump | callOp | ret | dgAdd | dgToDec | decToDg
deriving DecidableEq

structure IRInstr where
  op : IROp
  args : List String

structure BasicBlock where
  name : String
  instrs : List IRInstr

structure IRFunction where
  name : String
  blocks : List BasicBlock

/-- Errors of the CFG lowering: `typeError` models the fatal
`std::cerr << "Type error…"; exit(1)` path; `castUB` models the undefined
behaviour of `static_cast<ASTLiteral*>` applied to a node that is not a
literal. -/
inductive LowerErr where
  | typeError
  | castUB
deriving DecidableEq

/-- Operator mapping of the CFG lowering:
`(bin->op == "+") ? Add : (bin->op == "-") ? Sub : Add`. -/
def binOpcode (o : String) : IROp :=
  if o = "+" then .add else if o = "-" then .sub else .add

/-- Loop-body lowering (part_000 §4, inner loop over `loop->body`):
only `val` declarations are lowered, and their initializer is read through
`static_cast<ASTLiteral*>`. -/
def lowerLoopBody : List AST → List IRInstr → Except LowerErr (List IRInstr)
  | [], acc => .ok acc
  | .valDecl n _ty init :: rest, acc =>
      match init with
      | .lit v => lowerLoopBody rest (acc ++ [⟨.alloc, [n]⟩, ⟨.store, [n, v]⟩])
      | _ => .error .castUB
  | _ :: rest, acc => lowerLoopBody rest acc

/-- Statement loop of the CFG `lower` (part_000 §4): accumulates the `entry`
block's instructions and the loop blocks (`loop_cond`, `loop_body`,
`loop_end`), which the C++ pushes onto `fn.blocks` as it goes. -/
def lowerStmts : List AST → List IRInstr → List BasicBlock →
    Except LowerErr (List IRInstr × List BasicBlock)
  | [], entry, blocks => .ok (entry, blocks)
  | .valDecl n ty init :: rest, entry, blocks =>
      if ty ≠ "int" then .error .typeError
      else
        match init with
        | .binary l o r =>
            lowerStmts rest
              (entry ++ [⟨.alloc, [n]⟩, ⟨.store, [n, l]⟩, ⟨binOpcode o, [n, r]⟩]) blocks
        | .lit v => lowerStmts rest (entry ++ [⟨.alloc, [n]⟩, ⟨.store, [n, v]⟩]) blocks
        | _ => .error .castUB
  | .loop s e body :: rest, entry, blocks =>
      match s, e with
      | .lit sv, .lit ev =>
          match lowerLoopBody body [] with
          | .error err => .error err
          | .ok inner =>
              lowerStmts rest
                (entry ++ [⟨.alloc, ["i"]⟩, ⟨.store, ["i", sv]⟩, ⟨.jump, ["loop_cond"]⟩])
                (blocks ++
                  [⟨"loop_cond", [⟨.condJump, ["i", ev, "loop_end"]⟩, ⟨.jump, ["loop_body"]⟩]⟩,
                   ⟨"loop_body", inner ++ [⟨.add, ["i", "1"]⟩, ⟨.jump, ["loop_cond"]⟩]⟩,
                   ⟨"loop_end", []⟩])
      | _, _ => .error .castUB
  | _ :: rest, entry, blocks => lowerStmts rest entry blocks

/-- The CFG `lower(ASTProgram&) -> IRFunction`: entry block pushed last, after
any loop blocks, exactly as the C++ does. -/
def lower (stmts : List AST) : Except LowerErr IRFunction :=
  match lowerStmts stmts [] [] with
  | .error e => .error e
  | .ok (entry, blocks) => .ok ⟨"_main", blocks ++ [⟨"entry", entry⟩]⟩

/-- Execution state for the generated assembly: the memory cells named by the
emitted operands, plus an instrumentation counter of executed `add`
instructions (used to count loop increments; it has no effect on control
flow). -/
structure MState where
  vars : List (String × Int)
  adds : Nat
deriving DecidableEq

inductive RunErr where
  | outOfFuel
  | noLabel (l : String)
deriving DecidableEq

/-- Operand resolution in the generated assembly: a decimal token is an
immediate, anything else is a named memory cell (reading an unwritten cell is
modelled as 0; no execution in this development does so). -/
def resolve (vars : List (String × Int)) (t : String) : Int :=
  match stoi t with
  | .ok v => v
  | _ => (mapLookup vars t).getD 0

def findBlock (blocks : List BasicBlock) (l : String) : Option BasicBlock :=
  match blocks with
  | [] => none
  | b :: rest => if b.name = l then some b else findBlock rest l

/-- Execution of the assembly emitted by `X86_64CodeGen::emitInstr` for one IR
instruction stream, faithful to the emitted mnemonics: `Store` is `mov [a], v`;
`Add`/`Sub`/`Mul` update a cell; `Jump` is `jmp l`; `CondJump {a, b, t}` is
`cmp a, b` / `jne t`, i.e. it jumps to `t` exactly when the operands differ.
`Alloc` emits only a comment, so it is a no-op.  A block that ends without a
jump halts with the current state. -/
def execInstrList (jump : String → MState → Except RunErr MState) :
    List IRInstr → MState → Except RunErr MState
  | [], st => .ok st
  | i :: rest, st =>
      match i.op, i.args with
      | .store, n :: v :: _ =>
          execInstrList jump rest { st with vars := mapInsert st.vars n (resolve st.vars v) }
      | .add, n :: v :: _ =>
          execInstrList jump rest
            { vars := mapInsert st.vars n ((mapLookup st.vars n).getD 0 + resolve st.vars v),
              adds := st.adds + 1 }
      | .sub, n :: v :: _ =>
          execInstrList jump rest
            { st with vars := mapInsert st.vars n ((mapLookup st.vars n).getD 0 - resolve st.vars v) }
      | .jump, l :: _ => jump l st
      | .condJump, a :: b :: t :: _ =>
          if resolve st.vars a ≠ resolve st.vars b then jump t st
          else execInstrList jump rest st
      | .ret, _ => .ok st
      | _, _ => execInstrList jump rest st

/-- Transfer of control to a labelled block, bounded by fuel. -/
def execJump : Nat → IRFunction → String → MState → Except RunErr MState
  | 0, _, _, _ => .error .outOfFuel
  | f + 1, fn, l, st =>
      match findBlock fn.blocks l with
      | none => .error (.noLabel l)
      | some b => execInstrList (fun l2 st2 => execJump f fn l2 st2) b.instrs st

/-- Run the lowered function from its `entry` block, as the conceptual entry
point of the emitted code. -/
def execStart (fuel : Nat) (fn : IRFunction) : Except RunErr MState :=
  match findBlock fn.blocks "entry" with
  | none => .error (.noLabel "entry")
  | some b => execInstrList (fun l st => execJump fuel fn l st) b.instrs ⟨[], 0⟩

end CFG

namespace StackIR

/-- Model of `std::istringstream` state: remaining characters plus the
`eofbit`/`failbit` flags that govern C++ stream extraction. -/
structure Sstream where
  rem : List Char
  eofbit : Bool
  failbit : Bool
deriving DecidableEq

def Sstream.good (s : Sstream) : Bool := !s.eofbit && !s.failbit

/-- `in >> token` for `std::string`: on a non-good stream set `failbit` and
yield the empty string; otherwise skip whitespace and read a maximal non-space
run, setting `failbit` when nothing can be read and `eofbit` when the run ends
at end of input. -/
def Sstream.readToken (s : Sstream) : String × Sstream :=
  if !s.good then ("", { s with failbit := true })
  else
    match s.rem.dropWhile isWSChar with
    | [] => ("", ⟨[], true, true⟩)
    | c :: r =>
        let tok := (c :: r).takeWhile (fun ch => !isWSChar ch)
        let rest := (c :: r).drop tok.length
        (⟨tok⟩, ⟨rest, rest.isEmpty, false⟩)

/-- `in >> ch` for `char`: skip whitespace and read one character. -/
def Sstream.readChar (s : Sstream) : Char × Sstream :=
  if !s.good then ('\x00', { s with failbit := true })
  else
    match s.rem.dropWhile isWSChar with
    | [] => ('\x00', ⟨[], true, true⟩)
    | c :: r => (c, ⟨r, false, false⟩)

/-- `in.peek()`: on a non-good stream the sentry fails (setting `failbit`) and
eof is returned; on an exhausted good stream `eofbit` is set. -/
def Sstream.peekC (s : Sstream) : Option Char × Sstream :=
  if !s.good then (none, { s with failbit := true })
  else
    match s.rem with
    | [] => (none, { s with eofbit := true })
    | c :: _ => (some c, s)

/-- `in >> std::ws` followed by the boolean stream test of the enclosing
condition: fails on a non-good stream; otherwise skips whitespace (setting
`eofbit` when input is exhausted) and succeeds. -/
def Sstream.skipWs (s : Sstream) : Bool × Sstream :=
  if !s.good then (false, { s with failbit := true })
  else
    match s.rem.dropWhile isWSChar with
    | [] => (true, ⟨[], true, false⟩)
    | c :: r => (true, ⟨c :: r, false, false⟩)

/-- `in.ignore(1)`. -/
def Sstream.ignore1 (s : Sstream) : Sstream :=
  if !s.good then { s with failbit := true }
  else
    match s.rem with
    | [] => { s with eofbit := true }
    | _ :: r => { s with rem := r }

/-- `token[0]` with the C++ semantics that indexing an empty `std::string` at
position 0 yields the null character. -/
def strFront (t : String) : Char :=
  match t.data with
  | [] => '\x00'
  | c :: _ => c

/-- AST of the stack-frame pipeline (part_000, "PARSER (handles functions,
calls, expressions)" section). -/
inductive AST where
  | lit (value : String)
  | var (name : String)
  | binary (lhs op rhs : String)
  | valDecl (name type : String) (init : AST)
  | callE (funcName : String) (args : List AST)
  | funcDef (name : String) (params : List String) (body : List AST)

/-- `ASTProgram`: top-level statements plus the `functions` name map. -/
structure ASTProgram where
  statements : List AST
  functions : List (String × AST)

/-- Parse errors of the model: `fuel` is exhaustion of the recursion budget
(the C++ parser always terminates on finite input), `ub` models the undefined
behaviour of `param.back()` on an empty `std::string`. -/
inductive PErr where
  | fuel
  | ub
deriving DecidableEq

mutual

/-- `parseCall(funcName, in)`: consume `(`, then loop
`while (in.peek() != ')' && in >> std::ws)` collecting `parseExpr` arguments,
skipping a `,` after each, and finally `in.ignore(1)` for the `)`. -/
def parseCall (fuel : Nat) (funcName : String) (s : Sstream) :
    Except PErr (AST × Sstream) :=
  match fuel with
  | 0 => .error .fuel
  | f + 1 => parseCallArgs f funcName [] (s.readChar).2

/-- The argument loop of `parseCall`. -/
def parseCallArgs (fuel : Nat) (funcName : String) (args : List AST) (s : Sstream) :
    Except PErr (AST × Sstream) :=
  match fuel with
  | 0 => .error .fuel
  | f + 1 =>
      match s.peekC with
      | (pk, s1) =>
        if pk = some ')' then .ok (.callE funcName args, s1.ignore1)
        else
          match s1.skipWs with
          | (false, s2) => .ok (.callE funcName args, s2.ignore1)
          | (true, s2) =>
              match parseExpr f s2 with
              | .error e => .error e
              | .ok (arg, s3) =>
                  match s3.peekC with
                  | (pk2, s4) =>
                    parseCallArgs f funcName (args ++ [arg])
                      (if pk2 = some ',' then s4.ignore1 else s4)

/-- `parseExpr(in)`: read a token; digit-leading tokens are literals;
alphabetic tokens are calls when `(` follows, else an optional single binary
operator is tried (with `tellg`/`seekg` backtracking); everything else is a
literal. -/
def parseExpr (fuel : Nat) (s : Sstream) : Except PErr (AST × Sstream) :=
  match fuel with
  | 0 => .error .fuel
  | f + 1 =>
      match s.readToken with
      | (token, s1) =>
        if isDigitCh (strFront token) then .ok (.lit token, s1)
        else if isAlphaCh (strFront token) then
          match s1.peekC with
          | (pk, s2) =>
            if pk = some '(' then parseCall f token s2
            else
              -- std::streampos oldpos = in.tellg(); (tellg's sentry sets
              -- failbit on a non-good stream, in which case `in >> op` fails)
              match (if !s2.good then { s2 with failbit := true } else s2).readToken with
              | (op, s3) =>
                if s3.failbit then .ok (.var token, s3)
                else if op = "+" || op = "-" || op = "*" || op = "/" then
                  match s3.readToken with
                  | (rhs, s4) => .ok (.binary token op rhs, s4)
                else
                  -- in.seekg(oldpos): clears eofbit and restores the position
                  .ok (.var token, ⟨s2.rem, false, false⟩)
        else .ok (.lit token, s1)

end

/-- The parameter loop of `parseFunction`:
`while (in.peek() != ')' && in >> std::ws) { in >> param; … }`, where a
trailing `,` is popped from each parameter.  `param.back()` on an empty string
(a failed read) is undefined behaviour. -/
def parseFnParams (fuel : Nat) (ps : List String) (s : Sstream) :
    Except PErr (List String × Sstream) :=
  match fuel with
  | 0 => .error .fuel
  | f + 1 =>
      match s.peekC with
      | (pk, s1) =>
        if pk = some ')' then .ok (ps, s1)
        else
          match s1.skipWs with
          | (false, s2) => .ok (ps, s2)
          | (true, s2) =>
              match s2.readToken with
              | (param, s3) =>
                if param = "" then .error .ub
                else
                  let param2 :=
                    if param.data.getLast? = some ',' then ⟨param.data.dropLast⟩ else param
                  parseFnParams f (ps ++ [param2]) s3

/-- The shared `val` statement shape:
`in >> name; in.ignore(1); in >> type; in.ignore(1); init = parseExpr(in);`. -/
def parseValDecl (fuel : Nat) (s : Sstream) : Except PErr (AST × Sstream) :=
  match s.readToken with
  | (name, s1) =>
    match (s1.ignore1).readToken with
    | (ty, s2) =>
      match parseExpr fuel s2.ignore1 with
      | .error e => .error e
      | .ok (init, s3) => .ok (.valDecl name ty init, s3)

/-- The body loop of `parseFunction`: `while (in >> token && token != "}")`
handling `val` and `call` statements (anything else is skipped). -/
def parseFnBody (fuel : Nat) (body : List AST) (s : Sstream) :
    Except PErr (List AST × Sstream) :=
  match fuel with
  | 0 => .error .fuel
  | f + 1 =>
      match s.readToken with
      | (token, s1) =>
        if s1.failbit then .ok (body, s1)
        else if token = "\x7d" then .ok (body, s1)
        else if token = "val" then
          match parseValDecl f s1 with
          | .error e => .error e
          | .ok (decl, s2) => parseFnBody f (body ++ [decl]) s2
        else if token = "call" then
          match s1.readToken with
          | (fname, s2) =>
            match parseCall f fname s2 with
            | .error e => .error e
            | .ok (c, s3) => parseFnBody f (body ++ [c]) s3
        else parseFnBody f body s1

/-- `parseFunction(in)`: name, `(`-token, parameter loop, `)`, `{`-token,
body loop. -/
def parseFunction (fuel : Nat) (s : Sstream) : Except PErr (AST × Sstream) :=
  match s.readToken with
  | (name, s1) =>
    match s1.readToken with
    | (_, s2) =>  -- in >> param; // '('
      match parseFnParams fuel [] s2 with
      | .error e => .error e
      | .ok (params, s3) =>
          match (s3.ignore1).readToken with
          | (_, s4) =>  -- std::string brace; in >> brace; // '{'
            match parseFnBody fuel [] s4 with
            | .error e => .error e
            | .ok (body, s5) => .ok (.funcDef name params body, s5)

/-- The top-level statement loop of `parse`. -/
def parseTop (fuel : Nat) (stmts : List AST) (funcs : List (String × AST))
    (s : Sstream) : Except PErr ASTProgram :=
  match fuel with
  | 0 => .error .fuel
  | f + 1 =>
      match s.readToken with
      | (token, s1) =>
        if s1.failbit then .ok ⟨stmts, funcs⟩
        else if token = "val" then
          match parseValDecl f s1 with
          | .error e => .error e
          | .ok (decl, s2) => parseTop f (stmts ++ [decl]) funcs s2
        else if token = "func" then
          match parseFunction f s1 with
          | .error e => .error e
          | .ok (fn, s2) =>
              match fn with
              | .funcDef n _ _ => parseTop f (stmts ++ [fn]) (mapInsert funcs n fn) s2
              | _ => parseTop f (stmts ++ [fn]) funcs s2
        else if token = "call" then
          match s1.readToken with
          | (fname, s2) =>
            match parseCall f fname s2 with
            | .error e => .error e
            | .ok (c, s3) => parseTop f (stmts ++ [c]) funcs s3
        else parseTop f stmts funcs s1

/-- `parse(src)`: run the statement loop on a fresh stream over `src`. -/
def parse (fuel : Nat) (src : String) : Except PErr ASTProgram :=
  parseTop fuel [] [] ⟨src.data, false, false⟩

end StackIR

namespace StackIR

/-- IR opcodes of the stack-frame pipeline:
`enum class IROp { Alloc, Store, Load, Add, Call, Ret, Print }`. -/
inductive IROp where
  | alloc | store | load | add | callOp | ret | printOp
deriving DecidableEq

structure IRInstr where
  op : IROp
  args : List String
deriving DecidableEq

structure BasicBlock where
  name : String
  instrs : List IRInstr
deriving DecidableEq

/-- `IRFunction` with the per-function stack layout:
`varOffsets` maps each name to its slot, `stackSize` is the next free slot. -/
structure IRFunction where
  name : String
  params : List String
  blocks : List BasicBlock
  varOffsets : List (String × Nat)
  stackSize : Nat
deriving DecidableEq

structure IRProgram where
  functions : List (String × IRFunction)
deriving DecidableEq

/-- `allocateVar(fn, name)`: hand out the next stack slot and record it. -/
def allocateVar (fn : IRFunction) (name : String) : Nat × IRFunction :=
  (fn.stackSize,
   { fn with varOffsets := mapInsert fn.varOffsets name fn.stackSize,
             stackSize := fn.stackSize + 1 })

/-- The `varOffsets` assignment loop: insert each name at consecutive offsets
starting from `k` (this is both the `argIdx` parameter loop of `lowerFunction`
and the net effect of successive `allocateVar` calls). -/
def offsetsFold : List String → List (String × Nat) → Nat → List (String × Nat)
  | [], m, _ => m
  | n :: ns, m, k => offsetsFold ns (mapInsert m n k) (k + 1)

/-- Call-argument lowering: literals contribute their text, variables their
name, anything else is silently skipped (no `push_back` happens in C++). -/
def argName : AST → Option String
  | .lit v => some v
  | .var w => some w
  | _ => none

/-- One step of the body loop of `lowerFunction`: a `val` declaration
allocates a slot and emits `Alloc` plus (depending on the initializer) a
`Store` with a literal, a `Store` with a variable name, or an `Add` with both
binary operands; a call emits `Call [funcName, …args]`; anything else is
skipped. -/
def lowerStmt (acc : IRFunction × List IRInstr) (stmt : AST) :
    IRFunction × List IRInstr :=
  match stmt with
  | .valDecl n _ty init =>
      match allocateVar acc.1 n with
      | (ofs, fn2) =>
        let base := acc.2 ++ [⟨.alloc, [n, natRepr ofs]⟩]
        match init with
        | .lit v => (fn2, base ++ [⟨.store, [n, v]⟩])
        | .var w => (fn2, base ++ [⟨.store, [n, w]⟩])
        | .binary l _o r => (fn2, base ++ [⟨.add, [n, l, r]⟩])
        | _ => (fn2, base)
  | .callE f args => (acc.1, acc.2 ++ [⟨.callOp, f :: args.filterMap argName⟩])
  | _ => acc

/-- `lowerFunction(astFunc, irprog)`: parameters get offsets `0…` in order,
then the body is lowered into a single `<name>_entry` block. -/
def lowerFunction (fname : String) (params : List String) (body : List AST) :
    IRFunction :=
  match body.foldl lowerStmt
      (⟨fname, params, [], offsetsFold params [] 0, params.length⟩, []) with
  | (fn, instrs) => { fn with blocks := [⟨fname ++ "_entry", instrs⟩] }

/-- One step of the `_main` loop of `lower`: function definitions are skipped;
a `val` declaration allocates a slot and emits `Alloc`, plus `Store` only when
the initializer is a literal (no other initializer emits anything here); calls
emit `Call [funcName, …args]`. -/
def lowerMainStmt (acc : IRFunction × List IRInstr) (stmt : AST) :
    IRFunction × List IRInstr :=
  match stmt with
  | .valDecl n _ty init =>
      match allocateVar acc.1 n with
      | (ofs, fn2) =>
        let base := acc.2 ++ [⟨.alloc, [n, natRepr ofs]⟩]
        match init with
        | .lit v => (fn2, base ++ [⟨.store, [n, v]⟩])
        | _ => (fn2, base)
  | .callE f args => (acc.1, acc.2 ++ [⟨.callOp, f :: args.filterMap argName⟩])
  | _ => acc

/-- `lower(program) -> IRProgram`: lower each function definition, then the
top-level statements into a synthesized `_main` whose block is `entry`. -/
def lower (stmts : List AST) : IRProgram :=
  let withFns : IRProgram :=
    stmts.foldl
      (fun pr s =>
        match s with
        | .funcDef n ps b => ⟨mapInsert pr.functions n (lowerFunction n ps b)⟩
        | _ => pr)
      ⟨[]⟩
  match stmts.foldl lowerMainStmt (⟨"_main", [], [], [], 0⟩, []) with
  | (mainFn, instrs) =>
      ⟨mapInsert withFns.functions "_main" { mainFn with blocks := [⟨"entry", instrs⟩] }⟩

/-- `StackFrame`: per-call variable bindings (`retAddr` is carried but never
read, as in the C++). -/
structure StackFrame where
  vars : List (String × Int)
  retAddr : Int
deriving DecidableEq

abbrev CallStack := List StackFrame

/-- Interpreter errors: `undefinedFunction` models
`std::runtime_error("No such function: " + name)`; `stoiFailure` models the
`std::invalid_argument` thrown by `std::stoi`, `stoiOutOfRange` the
`std::out_of_range` it throws for a value outside the `int` range;
`outOfFuel` is exhaustion of the recursion budget; `stuck` models C++
undefined behaviour (`back()` on an empty call stack, missing instruction
operands, out-of-range argument indexing in `call`). -/
inductive ExecErr where
  | undefinedFunction (msg : String)
  | stoiFailure (text : String)
  | stoiOutOfRange (text : String)
  | outOfFuel
  | stuck (what : String)
deriving DecidableEq

/-- The frame scan inside `valueOf`, applied to the call stack already
reversed: first frame (innermost) that binds the name wins. -/
def findFrameBinding : CallStack → String → Option Int
  | [], _ => none
  | f :: fs, n =>
      match mapLookup f.vars n with
      | some v => some v
      | none => findFrameBinding fs n

/-- `IRInterpreter::valueOf(name)`: scan frames from `rbegin()` to `rend()`
(innermost to outermost); if no frame binds the name, fall back to
`std::stoi(name)`. -/
def valueOf (callStack : CallStack) (name : String) : Except ExecErr Int :=
  match findFrameBinding callStack.reverse name with
  | some v => .ok v
  | none =>
      match stoi name with
      | .ok v => .ok v
      | .invalidArgument => .error (.stoiFailure name)
      | .outOfRange => .error (.stoiOutOfRange name)

/-- `callStack.back().vars[n] = v`: update the innermost frame (undefined
behaviour on an empty call stack). -/
def setBackVar : CallStack → String → Int → Except ExecErr CallStack
  | [], _, _ => .error (.stuck "back on empty callStack")
  | [f], n, v => .ok [{ f with vars := mapInsert f.vars n v }]
  | f :: g :: fs, n, v =>
      match setBackVar (g :: fs) n v with
      | .error e => .error e
      | .ok r => .ok (f :: r)

/-- Evaluate every call operand via `valueOf`, propagating the first
exception, as the argument loop in `step` does. -/
def evalArgs (st : CallStack) : List String → Except ExecErr (List Int)
  | [] => .ok []
  | a :: as =>
      match valueOf st a with
      | .error e => .error e
      | .ok v =>
          match evalArgs st as with
          | .error e => .error e
          | .ok vs => .ok (v :: vs)

/-- The parameter-binding loop of `call`: `frame.vars[p] = args[idx++]`;
`args[idx]` past the end of the vector is undefined behaviour. -/
def mkFrame (params : List String) (args : List Int) : Except ExecErr StackFrame :=
  if params.length ≤ args.length then
    .ok ⟨(params.zip args).foldl (fun m pa => mapInsert m pa.1 pa.2) [], -1⟩
  else .error (.stuck "args index out of range")

/-- `IRInterpreter::step(instr)` parameterized by the function-call handler:
`Alloc` zero-initializes in the innermost frame; `Store` assigns
`std::stoi(args[1])` directly (no frame lookup); `Add` assigns
`valueOf(args[1]) + valueOf(args[2])`; `Call` evaluates its operands via
`valueOf`, prints when the target is `"say"` (output is not modelled) and
otherwise recurses into `call`; the remaining opcodes have no branch in the
C++ and do nothing. -/
def step (callF : String → List Int → CallStack → Except ExecErr CallStack)
    (instr : IRInstr) (st : CallStack) : Except ExecErr CallStack :=
  match instr.op, instr.args with
  | .alloc, n :: _ => setBackVar st n 0
  | .store, n :: src :: _ =>
      (match stoi src with
       | .ok v => setBackVar st n v
       | .invalidArgument => .error (.stoiFailure src)
       | .outOfRange => .error (.stoiOutOfRange src))
  | .add, n :: a :: b :: _ =>
      (match valueOf st a with
       | .error e => .error e
       | .ok va =>
          match valueOf st b with
          | .error e => .error e
          | .ok vb => setBackVar st n (va + vb))
  | .callOp, fname :: rest =>
      (match evalArgs st rest with
       | .error e => .error e
       | .ok args => if fname = "say" then .ok st else callF fname args st)
  | .load, _ => .ok st
  | .ret, _ => .ok st
  | .printOp, _ => .ok st
  | _, _ => .error (.stuck "missing instruction operands")

/-- The instruction loop of `execFunc`. -/
def execInstrs (callF : String → List Int → CallStack → Except ExecErr CallStack) :
    List IRInstr → CallStack → Except ExecErr CallStack
  | [], st => .ok st
  | i :: is, st =>
      match step callF i st with
      | .error e => .error e
      | .ok st2 => execInstrs callF is st2

/-- The block loop of `execFunc`. -/
def execBlocks (callF : String → List Int → CallStack → Except ExecErr CallStack) :
    List BasicBlock → CallStack → Except ExecErr CallStack
  | [], st => .ok st
  | b :: bs, st =>
      match execInstrs callF b.instrs st with
      | .error e => .error e
      | .ok st2 => execBlocks callF bs st2

/-- `IRInterpreter::call(name, args)`: look the callee up (throwing
`No such function: name` when absent), push a frame with the positional
argument bindings, run the callee's blocks, pop the frame.  The C++ `int`
result is always 0 and is ignored by every caller, so only the call stack is
returned.  An error escapes without the pop, like a C++ exception. -/
def call : Nat → IRProgram → String → List Int → CallStack → Except ExecErr CallStack
  | 0, _, _, _, _ => .error .outOfFuel
  | fuel + 1, prog, name, args, st =>
      match mapLookup prog.functions name with
      | none => .error (.undefinedFunction ("No such function: " ++ name))
      | some fn =>
          match mkFrame fn.params args with
          | .error e => .error e
          | .ok frame =>
              match execBlocks (fun n2 a2 s2 => call fuel prog n2 a2 s2) fn.blocks
                  (st ++ [frame]) with
              | .error e => .error e
              | .ok st2 => .ok st2.dropLast

/-- `execMain()`. -/
def execMain (fuel : Nat) (prog : IRProgram) : Except ExecErr CallStack :=
  call fuel prog "_main" [] []

/-- Run `_main`'s blocks from a freshly pushed frame WITHOUT the final pop:
this exposes the executing frame that `call` pops on return. -/
def runMainBody (fuel : Nat) (prog : IRProgram) : Except ExecErr CallStack :=
  match mapLookup prog.functions "_main" with
  | none => .error (.undefinedFunction ("No such function: " ++ "_main"))
  | some fn => execBlocks (fun n2 a2 s2 => call fuel prog n2 a2 s2) fn.blocks [⟨[], -1⟩]

end StackIR
namespace StackIR

theorem offsetsFold_lookup_not_mem (ns : List String) :
    ∀ (m : List (String × Nat)) (k : Nat) (q : String), q ∉ ns →
      mapLookup (offsetsFold ns m k) q = mapLookup m q := by
  induction ns with
  | nil => intro m k q _; rfl
  | cons n rest ih =>
      intro m k q hq
      have hqn : q ≠ n := fun h => hq (by simp [h])
      have hqrest : q ∉ rest := fun h => hq (by simp [h])
      rw [offsetsFold, ih (mapInsert m n k) (k + 1) q hqrest,
        mapLookup_insert_ne m n q k hqn]

theorem offsetsFold_get (ns : List String) :
    ∀ (m : List (String × Nat)) (k : Nat), ns.Nodup →
      ∀ (j : Nat) (hj : j < ns.length),
        mapLookup (offsetsFold ns m k) (ns.get ⟨j, hj⟩) = some (k + j) := by
  induction ns with
  | nil => intro m k _ j hj; simp at hj
  | cons n rest ih =>
      intro m k hnd j hj
      rcases List.nodup_cons.mp hnd with ⟨hnotmem, hndrest⟩
      match j with
      | 0 =>
          rw [offsetsFold]
          have hget : (n :: rest).get ⟨0, hj⟩ = n := rfl
          rw [hget, offsetsFold_lookup_not_mem rest (mapInsert m n k) (k + 1) n hnotmem,
            mapLookup_insert_self]
          simp
      | j' + 1 =>
          rw [offsetsFold]
          have hj' : j' < rest.length := by
            simp only [List.length_cons] at hj
            omega
          have hget : (n :: rest).get ⟨j' + 1, hj⟩ = rest.get ⟨j', hj'⟩ := rfl
          rw [hget, ih (mapInsert m n k) (k + 1) hndrest j' hj']
          congr 1
          omega

/-- The declaration names of a statement list, in order (the names
`allocateVar` is called with during body lowering). -/
def declNames (body : List AST) : List String :=
  body.filterMap fun s =>
    match s with
    | .valDecl n _ _ => some n
    | _ => none

theorem lowerStmt_fold_offsets (body : List AST) :
    ∀ (fn : IRFunction) (instrs : List IRInstr),
      ((body.foldl lowerStmt (fn, instrs)).1).varOffsets
          = offsetsFold (declNames body) fn.varOffsets fn.stackSize ∧
        ((body.foldl lowerStmt (fn, instrs)).1).stackSize
          = fn.stackSize + (declNames body).length := by
  induction body with
  | nil => intro fn instrs; simp [declNames, offsetsFold]
  | cons stmt rest ih =>
      intro fn instrs
      match stmt with
      | .valDecl n ty init =>
          have hdecl : declNames (AST.valDecl n ty init :: rest) = n :: declNames rest := by
            simp [declNames]
          obtain ⟨instrs2, hp⟩ : ∃ instrs2,
              lowerStmt (fn, instrs) (.valDecl n ty init)
                = ({ fn with varOffsets := mapInsert fn.varOffsets n fn.stackSize,
                             stackSize := fn.stackSize + 1 }, instrs2) := by
            rcases init <;> exact ⟨_, rfl⟩
          rw [List.foldl_cons, hp, hdecl]
          have h2 := ih { fn with varOffsets := mapInsert fn.varOffsets n fn.stackSize,
                                  stackSize := fn.stackSize + 1 } instrs2
          constructor
          · rw [offsetsFold]
            exact h2.1
          · rw [h2.2]
            simp [List.length_cons]
            omega
      | .lit v =>
          have hdecl : declNames (AST.lit v :: rest) = declNames rest := by simp [declNames]
          rw [List.foldl_cons, hdecl]
          exact ih fn instrs
      | .var w =>
          have hdecl : declNames (AST.var w :: rest) = declNames rest := by simp [declNames]
          rw [List.foldl_cons, hdecl]
          exact ih fn instrs
      | .binary l o r =>
          have hdecl : declNames (AST.binary l o r :: rest) = declNames rest := by
            simp [declNames]
          rw [List.foldl_cons, hdecl]
          exact ih fn instrs
      | .callE f args =>
          have hdecl : declNames (AST.callE f args :: rest) = declNames rest := by
            simp [declNames]
          rw [List.foldl_cons, hdecl]
          show ((rest.foldl lowerStmt (lowerStmt (fn, instrs) (.callE f args))).1).varOffsets
              = _ ∧ _
          rw [show lowerStmt (fn, instrs) (.callE f args)
              = (fn, instrs ++ [⟨.callOp, f :: args.filterMap argName⟩]) from rfl]
          exact ih fn _
      | .funcDef nm ps b =>
          have hdecl : declNames (AST.funcDef nm ps b :: rest) = declNames rest := by
            simp [declNames]
          rw [List.foldl_cons, hdecl]
          exact ih fn instrs

theorem lowerFunction_varOffsets (fname : String) (params : List String)
    (body : List AST) :
    (lowerFunction fname params body).varOffsets
      = offsetsFold (declNames body) (offsetsFold params [] 0) params.length := by
  have h := lowerStmt_fold_offsets body
    ⟨fname, params, [], offsetsFold params [] 0, params.length⟩ []
  rw [lowerFunction]
  rcases hfold : body.foldl lowerStmt
      (⟨fname, params, [], offsetsFold params [] 0, params.length⟩, []) with ⟨fn, instrs⟩
  rw [hfold] at h
  exact h.1

end StackIR

namespace StackIR

theorem setBackVar_stack :
    ∀ (st : CallStack) (n : String) (v : Int) (st2 : CallStack),
      setBackVar st n v = .ok st2 →
      st2.dropLast = st.dropLast ∧ st2.length = st.length := by
  intro st
  induction st with
  | nil => intro n v st2 h; simp [setBackVar] at h
  | cons f fs ih =>
      intro n v st2 h
      match fs with
      | [] =>
          rw [setBackVar] at h
          cases h
          exact ⟨rfl, rfl⟩
      | g :: fs2 =>
          rw [setBackVar] at h
          rcases hr : setBackVar (g :: fs2) n v with e | r
          · rw [hr] at h; cases h
          · rw [hr] at h
            cases h
            rcases ih n v r hr with ⟨hd, hl⟩
            obtain ⟨r0, rrest, hrr⟩ : ∃ r0 rrest, r = r0 :: rrest := by
              match r, hl with
              | r0 :: rrest, _ => exact ⟨r0, rrest, rfl⟩
            subst hrr
            constructor
            · show (f :: r0 :: rrest).dropLast = (f :: g :: fs2).dropLast
              rw [List.dropLast_cons₂, List.dropLast_cons₂, ← hd]
            · simp only [List.length_cons] at hl ⊢
              omega

theorem step_stack
    (callF : String → List Int → CallStack → Except ExecErr CallStack)
    (hc : ∀ n a s s2, callF n a s = .ok s2 → s2 = s) :
    ∀ (i : IRInstr) (st st2 : CallStack), step callF i st = .ok st2 →
      st2.dropLast = st.dropLast ∧ st2.length = st.length := by
  intro i st st2 h
  obtain ⟨op, args⟩ := i
  cases op with
  | alloc =>
      match args with
      | [] => simp [step] at h
      | n :: rest =>
          simp only [step] at h
          exact setBackVar_stack st n 0 st2 h
  | store =>
      match args with
      | [] => simp [step] at h
      | [n] => simp [step] at h
      | n :: src :: rest =>
          simp only [step] at h
          cases hs : stoi src with
          | ok v =>
              rw [hs] at h
              exact setBackVar_stack st n v st2 h
          | invalidArgument => rw [hs] at h; cases h
          | outOfRange => rw [hs] at h; cases h
  | add =>
      match args with
      | [] => simp [step] at h
      | [n] => simp [step] at h
      | [n, a] => simp [step] at h
      | n :: a :: b :: rest =>
          simp only [step] at h
          rcases ha : valueOf st a with e | va
          · rw [ha] at h; cases h
          · rw [ha] at h
            rcases hb : valueOf st b with e | vb
            · rw [hb] at h; cases h
            · rw [hb] at h
              exact setBackVar_stack st n (va + vb) st2 h
  | callOp =>
      match args with
      | [] => simp [step] at h
      | fname :: rest =>
          simp only [step] at h
          rcases he : evalArgs st rest with e | vs
          · rw [he] at h; cases h
          · simp only [he] at h
            by_cases hsay : fname = "say"
            · rw [if_pos hsay] at h
              cases h
              exact ⟨rfl, rfl⟩
            · rw [if_neg hsay] at h
              rw [hc fname vs st st2 h]
              exact ⟨rfl, rfl⟩
  | load =>
      simp only [step] at h; cases h; exact ⟨rfl, rfl⟩
  | ret =>
      simp only [step] at h; cases h; exact ⟨rfl, rfl⟩
  | printOp =>
      simp only [step] at h; cases h; exact ⟨rfl, rfl⟩

theorem execInstrs_stack
    (callF : String → List Int → CallStack → Except ExecErr CallStack)
    (hc : ∀ n a s s2, callF n a s = .ok s2 → s2 = s) :
    ∀ (l : List IRInstr) (st st2 : CallStack), execInstrs callF l st = .ok st2 →
      st2.dropLast = st.dropLast ∧ st2.length = st.length := by
  intro l
  induction l with
  | nil =>
      intro st st2 h
      rw [execInstrs] at h
      cases h
      exact ⟨rfl, rfl⟩
  | cons i is ih =>
      intro st st2 h
      rw [execInstrs] at h
      rcases hs : step callF i st with e | stm
      · rw [hs] at h; cases h
      · rw [hs] at h
        rcases step_stack callF hc i st stm hs with ⟨hd1, hl1⟩
        rcases ih stm st2 h with ⟨hd2, hl2⟩
        exact ⟨hd2.trans hd1, hl2.trans hl1⟩

theorem execBlocks_stack
    (callF : String → List Int → CallStack → Except ExecErr CallStack)
    (hc : ∀ n a s s2, callF n a s = .ok s2 → s2 = s) :
    ∀ (bs : List BasicBlock) (st st2 : CallStack), execBlocks callF bs st = .ok st2 →
      st2.dropLast = st.dropLast ∧ st2.length = st.length := by
  intro bs
  induction bs with
  | nil =>
      intro st st2 h
      rw [execBlocks] at h
      cases h
      exact ⟨rfl, rfl⟩
  | cons b rest ih =>
      intro st st2 h
      rw [execBlocks] at h
      rcases hs : execInstrs callF b.instrs st with e | stm
      · rw [hs] at h; cases h
      · rw [hs] at h
        rcases execInstrs_stack callF hc b.instrs st stm hs with ⟨hd1, hl1⟩
        rcases ih stm st2 h with ⟨hd2, hl2⟩
        exact ⟨hd2.trans hd1, hl2.trans hl1⟩

theorem call_stack_eq :
    ∀ (fuel : Nat) (prog : IRProgram) (name : String) (args : List Int)
      (st st2 : CallStack), call fuel prog name args st = .ok st2 → st2 = st := by
  intro fuel
  induction fuel with
  | zero => intro prog name args st st2 h; simp [call] at h
  | succ f ih =>
      intro prog name args st st2 h
      rw [call] at h
      rcases hl : mapLookup prog.functions name with _ | fn
      · rw [hl] at h; cases h
      · simp only [hl] at h
        rcases hm : mkFrame fn.params args with e | frame
        · rw [hm] at h; cases h
        · simp only [hm] at h
          rcases hb : execBlocks (fun n2 a2 s2 => call f prog n2 a2 s2) fn.blocks
              (st ++ [frame]) with e | stf
          · rw [hb] at h; cases h
          · simp only [hb] at h
            cases h
            rcases execBlocks_stack _ (fun n2 a2 s2 s3 hh => ih prog n2 a2 s2 s3 hh)
                fn.blocks (st ++ [frame]) stf hb with ⟨hd, _⟩
            rw [hd, List.dropLast_concat]

end StackIR

namespace StackIR

theorem execBlocks_single
    (callF : String → List Int → CallStack → Except ExecErr CallStack)
    (b : BasicBlock) (st : CallStack) :
    execBlocks callF [b] st
      = match execInstrs callF b.instrs st with
        | .error e => .error e
        | .ok st2 => .ok st2 := by
  rw [execBlocks]
  rcases h : execInstrs callF b.instrs st with e | st2 <;> rfl

theorem exec_alloc_store
    (callF : String → List Int → CallStack → Except ExecErr CallStack)
    (x s : String) (v : Int) (h : stoi s = .ok v) :
    execInstrs callF [⟨.alloc, [x, "0"]⟩, ⟨.store, [x, s]⟩] [⟨[], -1⟩]
      = .ok [⟨[(x, v)], -1⟩] := by
  rw [execInstrs]
  rw [show step callF ⟨.alloc, [x, "0"]⟩ [⟨[], -1⟩] = .ok [⟨[(x, 0)], -1⟩] from rfl]
  show execInstrs callF [⟨.store, [x, s]⟩] [⟨[(x, 0)], -1⟩] = .ok [⟨[(x, v)], -1⟩]
  rw [execInstrs]
  rw [show step callF ⟨.store, [x, s]⟩ [⟨[(x, 0)], -1⟩]
      = match stoi s with
        | .ok w => .ok [⟨mapInsert [(x, 0)] x w, -1⟩]
        | .invalidArgument => .error (.stoiFailure s)
        | .outOfRange => .error (.stoiOutOfRange s) from rfl]
  rw [h]
  simp [mapInsert, execInstrs]

end StackIR

/-- Claim C1 (amended): for every integer literal `n` that fits in `int`
(`n ≤ INT_MAX`), lowering `val x as int: n` and interpreting the resulting
`_main` body leaves `x` bound to `n` in the executing frame (the frame that
`call` pops on return).  For larger literals `std::stoi` throws
`std::out_of_range` and `x` is never bound — see the counterexample. -/
theorem claim1_literal_roundtrip (n : Nat) (h : (n : Int) ≤ intMax) :
    StackIR.runMainBody 1 (StackIR.lower [.valDecl "x" "int" (.lit (natRepr n))])
      = .ok [⟨[("x", (n : Int))], -1⟩] := by
  have hL : StackIR.lower [.valDecl "x" "int" (.lit (natRepr n))]
      = ⟨[("_main", ⟨"_main", [],
          [⟨"entry", [⟨.alloc, ["x", "0"]⟩, ⟨.store, ["x", natRepr n]⟩]⟩],
          [("x", 0)], 1⟩)]⟩ := rfl
  rw [hL, StackIR.runMainBody]
  rw [show mapLookup [("_main", (⟨"_main", [],
      [⟨"entry", [⟨.alloc, ["x", "0"]⟩, ⟨.store, ["x", natRepr n]⟩]⟩],
      [("x", 0)], 1⟩ : StackIR.IRFunction))] "_main"
      = some ⟨"_main", [],
          [⟨"entry", [⟨.alloc, ["x", "0"]⟩, ⟨.store, ["x", natRepr n]⟩]⟩],
          [("x", 0)], 1⟩ from rfl]
  show StackIR.execBlocks _ [⟨"entry", [⟨.alloc, ["x", "0"]⟩, ⟨.store, ["x", natRepr n]⟩]⟩]
      [⟨[], -1⟩] = .ok [⟨[("x", (n : Int))], -1⟩]
  rw [StackIR.execBlocks_single]
  rw [StackIR.exec_alloc_store _ "x" (natRepr n) (n : Int) (stoi_natRepr n h)]

theorem claim1_witness :
    ((2147483647 : Int) ≤ intMax) ∧
      StackIR.runMainBody 1
          (StackIR.lower [.valDecl "x" "int" (.lit (natRepr 2147483647))])
        = .ok [⟨[("x", (2147483647 : Int))], -1⟩] :=
  ⟨by decide, claim1_literal_roundtrip 2147483647 (by decide)⟩

/-- Claim C1 counterexample: for the integer literal 2147483648 (= 2^31, one
past `INT_MAX`), `std::stoi` throws `std::out_of_range` inside `Store`, so
interpretation aborts and `x` is never bound to the literal's value — the
unrestricted claim fails at this literal. -/
theorem claim1_counterexample :
    StackIR.runMainBody 1
        (StackIR.lower [.valDecl "x" "int" (.lit "2147483648")])
      = .error (.stoiOutOfRange "2147483648") := rfl

/-- Claim C2 (code bug): the interpreter's `Store` performs no frame lookup at
all — it parses `args[1]` directly with `std::stoi` — so a `Store` whose
source operand is a variable name throws even when a frame binds that name.
Here the innermost frame binds `x` to 7, yet `Store y x` fails instead of
storing 7. -/
theorem claim2_store_ignores_frames :
    StackIR.step (StackIR.call 5 (StackIR.lower []))
        ⟨.store, ["y", "x"]⟩ [⟨[("x", 7)], -1⟩]
      = .error (.stoiFailure "x") := rfl

/-- Claim C3 (amended): lowering a `ValueDecl` whose initializer is a
`BinaryExpr` emits the `Add` opcode with both operands regardless of the
operator symbol (the stack-frame pipeline's `IROp` has no `Sub`/`Mul`/`Div`). -/
theorem claim3_binary_always_add (fn : StackIR.IRFunction)
    (instrs : List StackIR.IRInstr) (n ty l o r : String) :
    (StackIR.lowerStmt (fn, instrs) (.valDecl n ty (.binary l o r))).2
      = instrs ++ [⟨.alloc, [n, natRepr fn.stackSize]⟩, ⟨.add, [n, l, r]⟩] := by
  simp [StackIR.lowerStmt, StackIR.allocateVar]

/-- Claim C3 counterexample: lowering `val y as int: a - b` emits `Add`, not a
subtraction opcode, so the claimed operator correspondence (`Sub` for `-`)
fails. -/
theorem claim3_counterexample :
    StackIR.lowerFunction "f" [] [.valDecl "y" "int" (.binary "a" "-" "b")]
      = ⟨"f", [], [⟨"f_entry", [⟨.alloc, ["y", "0"]⟩, ⟨.add, ["y", "a", "b"]⟩]⟩],
         [("y", 0)], 1⟩ := rfl

/-- Claim C4 (amended): in the CFG pipeline's `lower`, a `ValueDecl` whose
declared type is not `int` aborts the whole lowering with a fatal type error,
whatever follows. -/
theorem claim4_cfg_type_error (n ty : String) (init : CFG.AST) (rest : List CFG.AST)
    (h : ty ≠ "int") :
    CFG.lower (.valDecl n ty init :: rest) = .error .typeError := by
  rcases init <;> rw [CFG.lower, CFG.lowerStmts, if_pos h] <;> try simp

theorem claim4_witness :
    ("float" ≠ "int") ∧
      CFG.lower [.valDecl "x" "float" (.lit "1")] = .error .typeError :=
  ⟨by decide, claim4_cfg_type_error "x" "float" (.lit "1") [] (by decide)⟩

/-- Claim C4 counterexample: the stack-frame pipeline's `lower` performs no
type check at all — a declaration with declared type `float` lowers to a full
IR program (so "any other declared type … no IR program is produced" fails on
this cited lowering). -/
theorem claim4_counterexample :
    StackIR.lower [.valDecl "x" "float" (.lit "1")]
      = ⟨[("_main", ⟨"_main", [],
          [⟨"entry", [⟨.alloc, ["x", "0"]⟩, ⟨.store, ["x", "1"]⟩]⟩],
          [("x", 0)], 1⟩)]⟩ := rfl

/-- Claim C5 (amended): `parse` cannot fail on malformed input — `val` not
followed by a name yields a `ValueDecl` with empty name, empty type and an
empty-literal initializer, with no error raised. -/
theorem claim5_degraded_parse :
    StackIR.parse 100 "val" = .ok ⟨[.valDecl "" "" (.lit "")], []⟩ := rfl

/-- Claim C5 counterexample: on the malformed source `val` (keyword with no
name following), `parse` succeeds — it does not fail with a `ParseError` and
it does return an AST. -/
theorem claim5_counterexample :
    (StackIR.parse 100 "val").toOption.isSome = true := rfl

/-- Claim C6 (confirmed): a `call` whose target is absent from the program's
function map fails with the `No such function: <name>` error, and a `Call`
instruction with such a target (other than the `say` primitive) propagates
that same error to the caller. -/
theorem claim6_undefined_function (fuel : Nat) (prog : StackIR.IRProgram)
    (name : String) (args : List Int) (st : StackIR.CallStack)
    (h : mapLookup prog.functions name = none) (hsay : name ≠ "say") :
    StackIR.call (fuel + 1) prog name args st
        = .error (.undefinedFunction ("No such function: " ++ name)) ∧
      StackIR.step (fun n2 a2 s2 => StackIR.call (fuel + 1) prog n2 a2 s2)
          ⟨.callOp, [name]⟩ st
        = .error (.undefinedFunction ("No such function: " ++ name)) := by
  have hcall : ∀ a : List Int, StackIR.call (fuel + 1) prog name a st
      = .error (.undefinedFunction ("No such function: " ++ name)) := by
    intro a
    rw [StackIR.call, h]
  refine ⟨hcall args, ?_⟩
  simp only [StackIR.step, StackIR.evalArgs]
  rw [if_neg hsay]
  exact hcall []

theorem claim6_witness :
    (mapLookup (StackIR.lower []).functions "g" = none) ∧ ("g" ≠ "say") ∧
      StackIR.call 1 (StackIR.lower []) "g" [] []
        = .error (.undefinedFunction ("No such function: " ++ "g")) :=
  ⟨rfl, by decide,
    (claim6_undefined_function 0 (StackIR.lower []) "g" [] [] rfl (by decide)).1⟩

/-- Claim C7 (amended): every interpreter call that returns leaves the call
stack exactly as it found it — the callee's frame is pushed on entry, popped
on return, and no frame of the caller is modified, so callee bindings are
invisible to the caller afterwards.  (The claim's own example program errors
instead of returning; see the counterexample.) -/
theorem claim7_frame_isolation (fuel : Nat) (prog : StackIR.IRProgram)
    (name : String) (args : List Int) (st st2 : StackIR.CallStack)
    (h : StackIR.call fuel prog name args st = .ok st2) : st2 = st :=
  StackIR.call_stack_eq fuel prog name args st st2 h

theorem claim7_witness :
    (StackIR.call 10
        (StackIR.lower [.funcDef "f" ["x"] [.valDecl "y" "int" (.lit "5")],
                        .callE "f" [.lit "7"]])
        "f" [7] [⟨[("z", 1)], -1⟩] = .ok [⟨[("z", 1)], -1⟩]) ∧
      ([⟨[("z", 1)], -1⟩] : StackIR.CallStack) = [⟨[("z", 1)], -1⟩] :=
  ⟨rfl, claim7_frame_isolation 10
      (StackIR.lower [.funcDef "f" ["x"] [.valDecl "y" "int" (.lit "5")],
                      .callE "f" [.lit "7"]])
      "f" [7] [⟨[("z", 1)], -1⟩] [⟨[("z", 1)], -1⟩] rfl⟩

/-- Claim C7 counterexample: the claim's example — `func f(x) { val y as int: x }`
with `call f(7)` — does not return at all: `Store y x` parses `x` with
`std::stoi` (no frame lookup) and throws, so the call never completes and `y`
is never bound from `x`. -/
theorem claim7_counterexample :
    StackIR.call 10
        (StackIR.lower [.funcDef "f" ["x"] [.valDecl "y" "int" (.var "x")],
                        .callE "f" [.lit "7"]])
        "_main" [] []
      = .error (.stoiFailure "x") := rfl

/-- Claim C8 (confirmed): for a lowered function whose parameter and local
names are distinct, `varOffsets` assigns slot `i` to the `i`-th parameter and
slot `#params + j` to the `j`-th declared local, in declaration order; and in
particular lowering `val a as int: 3` then `val b as int: 4` yields `_main`
with the two `Alloc`/`Store` pairs in order at offsets 0 and 1. -/
theorem claim8_offsets (fname : String) (params : List String)
    (body : List StackIR.AST)
    (h : (params ++ StackIR.declNames body).Nodup) :
    (∀ (i : Nat) (hi : i < params.length),
        mapLookup (StackIR.lowerFunction fname params body).varOffsets
            (params.get ⟨i, hi⟩) = some i) ∧
    (∀ (j : Nat) (hj : j < (StackIR.declNames body).length),
        mapLookup (StackIR.lowerFunction fname params body).varOffsets
            ((StackIR.declNames body).get ⟨j, hj⟩) = some (params.length + j)) ∧
    StackIR.lower [.valDecl "a" "int" (.lit "3"), .valDecl "b" "int" (.lit "4")]
      = ⟨[("_main", ⟨"_main", [],
          [⟨"entry", [⟨.alloc, ["a", "0"]⟩, ⟨.store, ["a", "3"]⟩,
                      ⟨.alloc, ["b", "1"]⟩, ⟨.store, ["b", "4"]⟩]⟩],
          [("a", 0), ("b", 1)], 2⟩)]⟩ := by
  rcases List.nodup_append.mp h with ⟨hp, hd, hdisj⟩
  refine ⟨?_, ?_, rfl⟩
  · intro i hi
    rw [StackIR.lowerFunction_varOffsets]
    have hmem : params.get ⟨i, hi⟩ ∈ params := params.get_mem i hi
    have hnot : params.get ⟨i, hi⟩ ∉ StackIR.declNames body :=
      fun hmem2 => hdisj hmem hmem2
    rw [StackIR.offsetsFold_lookup_not_mem _ _ _ _ hnot]
    have hg := StackIR.offsetsFold_get params [] 0 hp i hi
    simpa using hg
  · intro j hj
    rw [StackIR.lowerFunction_varOffsets]
    exact StackIR.offsetsFold_get (StackIR.declNames body)
      (StackIR.offsetsFold params [] 0) params.length hd j hj

theorem claim8_witness :
    ((["p"] ++ StackIR.declNames [.valDecl "a" "int" (.lit "1")]).Nodup) ∧
      mapLookup (StackIR.lowerFunction "f" ["p"]
          [.valDecl "a" "int" (.lit "1")]).varOffsets "p" = some 0 ∧
      mapLookup (StackIR.lowerFunction "f" ["p"]
          [.valDecl "a" "int" (.lit "1")]).varOffsets "a" = some 1 := by
  refine ⟨by decide, ?_, ?_⟩
  · have hg := (claim8_offsets "f" ["p"] [.valDecl "a" "int" (.lit "1")]
        (by decide)).1 0 (by decide)
    simpa using hg
  · have hg := (claim8_offsets "f" ["p"] [.valDecl "a" "int" (.lit "1")]
        (by decide)).2.1 0 (by decide)
    simpa using hg

/-- Claim C9 (code bug): the code generator emits `CondJump {i, bound, exit}`
as `cmp i, bound` / `jne exit`, so the generated code leaves the loop whenever
`i` differs from the bound.  Executing the IR lowered from `loop 0 to 5 { }`
under these semantics performs 0 increments (final `i` is 0, and no `add`
instruction ever executes), not the 5 increments the claim states. -/
theorem claim9_loop_zero_increments :
    (CFG.lower [.loop (.lit "0") (.lit "5") []]).map (CFG.execStart 100)
      = .ok (.ok ⟨[("i", 0)], 0⟩) := rfl

/-- Claim C10 (confirmed): `valueOf` scans the call stack from the most
recently pushed frame to the oldest and returns the first binding found: a
name unbound in the innermost frame but bound in the caller's frame resolves
to the caller's value (whatever older frames contain), and a binding in the
innermost frame always wins. -/
theorem claim10_frame_chain_resolution (front : StackIR.CallStack)
    (caller callee : StackIR.StackFrame) (n : String) (v w : Int)
    (h1 : mapLookup callee.vars n = none) (h2 : mapLookup caller.vars n = some v) :
    StackIR.valueOf (front ++ [caller, callee]) n = .ok v ∧
      (∀ (st : StackIR.CallStack) (g : StackIR.StackFrame),
        mapLookup g.vars n = some w → StackIR.valueOf (st ++ [g]) n = .ok w) := by
  constructor
  · have hrev : (front ++ [caller, callee]).reverse
        = callee :: caller :: front.reverse := by simp
    simp only [StackIR.valueOf, hrev, StackIR.findFrameBinding, h1, h2]
  · intro st g hg
    have hrev : (st ++ [g]).reverse = g :: st.reverse := by simp
    simp only [StackIR.valueOf, hrev, StackIR.findFrameBinding, hg]

theorem claim10_witness :
    (mapLookup (⟨[("y", 1)], -1⟩ : StackIR.StackFrame).vars "x" = none) ∧
      (mapLookup (⟨[("x", 7)], -1⟩ : StackIR.StackFrame).vars "x" = some 7) ∧
      StackIR.valueOf [⟨[("x", 7)], -1⟩, ⟨[("y", 1)], -1⟩] "x" = .ok 7 ∧
      StackIR.valueOf [⟨[("x", 9)], -1⟩] "x" = .ok 9 := by
  have h := claim10_frame_chain_resolution [] ⟨[("x", 7)], -1⟩ ⟨[("y", 1)], -1⟩
      "x" 7 9 rfl rfl
  exact ⟨rfl, rfl, h.1, h.2 [] ⟨[("x", 9)], -1⟩ rfl⟩
